import Mathlib

/-!
Shallow embedding of the data-transformation core of the Artist-Dashboard
repository (src/data/data_processor.py and src/utils/analytics.py).

A pandas cell value is modelled by `Val`: finite numbers are exact rationals,
`vdate` holds a datetime64 value as a whole number of days since 1970-01-01,
`vnan` stands for NaN/NaT, `vinf`/`vninf` for the IEEE infinities.  A DataFrame
row is an association list from column names to values, a DataFrame is a list
of rows.  In-place mutation of an argument DataFrame (pandas column assignment
`data[col] = ...`) is made explicit: every transformation returns a pair
`(result, state of the argument after the call)`.

Malformed date strings make `pd.to_datetime` raise in the source; that error
path is outside the claims checked here and is represented by `vnan` (NaT).
-/

inductive Val where
  | vnum (q : ℚ)
  | vdate (d : ℤ)
  | vstr (s : String)
  | vnan
  | vinf
  | vninf
  deriving DecidableEq, Repr

open Val

abbrev Row := List (String × Val)

abbrev Frame := List Row

/-- Reading a column of a row (`row[col]`): the first entry named `c`; a
missing column is NaN here (the source would raise a KeyError, a path no
claim exercises). -/
def getCol (c : String) : Row → Val
  | [] => vnan
  | p :: rest => if p.1 = c then p.2 else getCol c rest

/-- Column assignment on one row: replace the value if the column exists,
append the column otherwise. -/
def Row.set (r : Row) (c : String) (v : Val) : Row :=
  if r.any (fun p => p.1 = c) then
    r.map (fun p => if p.1 = c then (c, v) else p)
  else r ++ [(c, v)]

/-- Values of one column (`data[col]` as a Series). -/
def colVals (c : String) (df : Frame) : List Val :=
  df.map (getCol c)

/-- Column assignment `data[col] = series` from an explicit list of values. -/
def setColVals (df : Frame) (c : String) (vs : List Val) : Frame :=
  (df.zip vs).map (fun p => Row.set p.1 c p.2)

/-- Column assignment `data[col] = f(row)` computed rowwise. -/
def setColFn (df : Frame) (c : String) (f : Row → Val) : Frame :=
  df.map (fun r => Row.set r c (f r))

/-! ### Calendar arithmetic (datetime64 / isocalendar) -/

/-- Civil date (year, month, day) of a day count since 1970-01-01,
following the standard era-based algorithm; `/` on `ℤ` rounds down for the
positive divisors used here. -/
def civilFromDays (z0 : ℤ) : ℤ × ℤ × ℤ :=
  let z := z0 + 719468
  let era := z / 146097
  let doe := z - era * 146097
  let yoe := (doe - doe / 1460 + doe / 36524 - doe / 146096) / 365
  let y := yoe + era * 400
  let doy := doe - (365 * yoe + yoe / 4 - yoe / 100)
  let mp := (5 * doy + 2) / 153
  let d := doy - (153 * mp + 2) / 5 + 1
  let m := mp + (if mp < 10 then 3 else -9)
  (y + (if m ≤ 2 then 1 else 0), m, d)

/-- Day count since 1970-01-01 of a civil date. -/
def daysFromCivil (y m d : ℤ) : ℤ :=
  let yy := if m ≤ 2 then y - 1 else y
  let era := yy / 400
  let yoe := yy - era * 400
  let mp := if m > 2 then m - 3 else m + 9
  let doy := (153 * mp + 2) / 5 + d - 1
  let doe := yoe * 365 + yoe / 4 - yoe / 100 + doy
  era * 146097 + doe - 719468

/-- Weekday with Monday = 0 (1970-01-01 was a Thursday). -/
def weekdayOf (z : ℤ) : ℤ := (z + 3) % 7

/-- Day count of the Thursday in the ISO week containing `z`. -/
def isoThursday (z : ℤ) : ℤ := z - weekdayOf z + 3

/-- ISO-8601 year of a day (`Series.dt.isocalendar().year`). -/
def isoYear (z : ℤ) : ℤ := (civilFromDays (isoThursday z)).1

/-- ISO-8601 week number of a day (`Series.dt.isocalendar().week`). -/
def isoWeek (z : ℤ) : ℤ :=
  (isoThursday z - daysFromCivil (isoYear z) 1 1) / 7 + 1

/-- Calendar month of a day (`Series.dt.month`). -/
def monthOf (z : ℤ) : ℤ := (civilFromDays z).2.1

/-- Calendar year of a day (`Series.dt.year`). -/
def yearOf (z : ℤ) : ℤ := (civilFromDays z).1

/-! ### Parsing ISO date strings (`pd.to_datetime` on strings) -/

def digitVal (c : Char) : Option ℕ :=
  if 48 ≤ c.toNat ∧ c.toNat ≤ 57 then some (c.toNat - 48) else none

def parseNatChars : List Char → ℕ → Option ℕ
  | [], acc => some acc
  | c :: cs, acc =>
      match digitVal c with
      | some d => parseNatChars cs (acc * 10 + d)
      | none => none

/-- Splits a character list at the dash character. -/
def splitDash (cs : List Char) : List (List Char) :=
  match cs with
  | [] => [[]]
  | c :: rest =>
      let tl := splitDash rest
      if c = Char.ofNat 45 then [] :: tl
      else
        match tl with
        | [] => [[c]]
        | g :: gs => (c :: g) :: gs

/-- Parses a date string of the form YYYY-MM-DD to a day count. -/
def parseDate (s : String) : Option ℤ :=
  match splitDash s.data with
  | [ys, ms, ds] =>
      match parseNatChars ys 0, parseNatChars ms 0, parseNatChars ds 0 with
      | some y, some m, some d =>
          if ys ≠ [] ∧ ms ≠ [] ∧ ds ≠ [] then
            some (daysFromCivil (y : ℤ) (m : ℤ) (d : ℤ))
          else none
      | _, _, _ => none
  | _ => none

/-- Value-level `pd.to_datetime`: dates pass through, strings are parsed
(unparseable strings raise in the source; here NaT), NaN becomes NaT.
Numeric epoch input, which pandas would interpret as nanoseconds, is outside
the claims and also maps to NaT. -/
def to_datetime (v : Val) : Val :=
  match v with
  | vdate d => vdate d
  | vstr s => match parseDate s with
              | some d => vdate d
              | none => vnan
  | _ => vnan

/-- Is the column datetime64-typed?  In this model: every row holds a
`vdate` in the column (vacuously true of the empty frame, where the
coercion below is a no-op anyway). -/
def isDatetimeCol (c : String) (df : Frame) : Bool :=
  df.all (fun r => match getCol c r with | vdate _ => true | _ => false)

/-- Rowwise date coercion of one column. -/
def coerceRow (c : String) (r : Row) : Row :=
  r.map (fun p => if p.1 = c then (p.1, to_datetime p.2) else p)

/-- The dtype-guarded in-place coercion
`if not is_datetime64_dtype(data[col]): data[col] = pd.to_datetime(data[col])`. -/
def coerceFrame (c : String) (df : Frame) : Frame :=
  if isDatetimeCol c df then df else df.map (coerceRow c)

/-! ### Elementwise float arithmetic (NaN- and infinity-aware) -/

/-- Subtraction on cell values with IEEE semantics on NaN and the
infinities; non-numeric operands (dates, strings), on which the source
would raise, give NaN. -/
def valSub : Val → Val → Val
  | vnum a, vnum b => vnum (a - b)
  | vnum _, vinf => vninf
  | vnum _, vninf => vinf
  | vinf, vnum _ => vinf
  | vinf, vninf => vinf
  | vninf, vnum _ => vninf
  | vninf, vinf => vninf
  | _, _ => vnan

/-- Division on cell values with IEEE semantics: a nonzero number over
zero gives a signed infinity, zero over zero gives NaN. -/
def valDiv : Val → Val → Val
  | vnum a, vnum b =>
      if b = 0 then
        if a > 0 then vinf else if a < 0 then vninf else vnan
      else vnum (a / b)
  | vnum _, vinf => vnum 0
  | vnum _, vninf => vnum 0
  | vinf, vnum b => if b < 0 then vninf else vinf
  | vninf, vnum b => if b < 0 then vinf else vninf
  | _, _ => vnan

/-- Addition on cell values (used by the pandas `sum` aggregate). -/
def valAdd : Val → Val → Val
  | vnum a, vnum b => vnum (a + b)
  | vnum _, vinf => vinf
  | vnum _, vninf => vninf
  | vinf, vnum _ => vinf
  | vinf, vinf => vinf
  | vninf, vnum _ => vninf
  | vninf, vninf => vninf
  | _, _ => vnan

/-- Multiplication on cell values. -/
def valMul : Val → Val → Val
  | vnum a, vnum b => vnum (a * b)
  | vnum a, vinf => if a > 0 then vinf else if a < 0 then vninf else vnan
  | vnum a, vninf => if a > 0 then vninf else if a < 0 then vinf else vnan
  | vinf, vnum b => if b > 0 then vinf else if b < 0 then vninf else vnan
  | vninf, vnum b => if b > 0 then vninf else if b < 0 then vinf else vnan
  | vinf, vinf => vinf
  | vninf, vninf => vinf
  | vinf, vninf => vninf
  | vninf, vinf => vninf
  | _, _ => vnan

/-- Series/aggregate `sum` (pandas default `skipna=True`: NaN contributes
nothing; an empty series sums to 0). -/
def pdSum (ys : List Val) : Val :=
  ys.foldr (fun v acc => match v with | vnan => acc | _ => valAdd v acc) (vnum 0)

/-- Aggregate `first`: the first non-NaN value of the group. -/
def pdFirst (ys : List Val) : Val :=
  ((ys.filter (fun v => v ≠ vnan)).head?).getD vnan

/-- Rolling window of width `w` ending at index `i` inclusive
(`i + 1 >= w` is assumed by the caller). -/
def windowAt (w i : ℕ) (xs : List Val) : List Val :=
  (xs.take (i + 1)).drop (i + 1 - w)

def allNums : List Val → Option (List ℚ)
  | [] => some []
  | vnum q :: rest => (allNums rest).map (fun qs => q :: qs)
  | _ => none

/-- Mean of a full window: NaN as soon as the window holds a non-number
(with pandas' default `min_periods = window`, any NaN in the window makes
the count fall short), otherwise the arithmetic mean. -/
def meanVal (ys : List Val) : Val :=
  match allNums ys with
  | some qs => vnum (qs.sum / (ys.length : ℚ))
  | none => vnan

/-- Series `rolling(window=w).mean()`: NaN while fewer than `w`
observations are available, then the trailing mean. -/
def rollingVals (w : ℕ) (xs : List Val) : List Val :=
  (List.range xs.length).map
    (fun i => if i + 1 < w then vnan else meanVal (windowAt w i xs))

/-! ### src/data/data_processor.py -/

/-- Sort-key order used by `groupby` on the (year, week) / (year, month)
pair columns: lexicographic on numeric values. -/
def valLeB : Val → Val → Bool
  | vnum a, vnum b => a ≤ b
  | _, _ => true

def keyLeB (k k' : Val × Val) : Bool :=
  if k.1 = k'.1 then valLeB k.2 k'.2 else valLeB k.1 k'.1

/-- Distinct group keys in the ascending order `groupby(sort=True)` uses. -/
def groupKeys (df : Frame) (c1 c2 : String) : List (Val × Val) :=
  ((df.map (fun r => (getCol c1 r, getCol c2 r))).dedup).mergeSort keyLeB

/-- Shared body of the weekly/monthly conversions: group the (already
augmented) frame on the two key columns, aggregating the value column with
`sum` and the date column with `first`, and `reset_index()` the keys back
into columns.  Column order of the result matches pandas: the two keys,
then the aggregated columns in dictionary order. -/
def groupAgg (df : Frame) (c1 c2 valueCol dateCol : String) : Frame :=
  (groupKeys df c1 c2).map (fun k =>
    let grp := df.filter (fun r => (getCol c1 r, getCol c2 r) = k)
    [(c1, k.1), (c2, k.2),
     (valueCol, pdSum (colVals valueCol grp)),
     (dateCol, pdFirst (colVals dateCol grp))])

/-- Embeds `convert_to_weekly(data, date_column, value_column)`.  The second
component is the caller's DataFrame after the call: the source coerces the
date column and assigns the `week` and `year` columns on `data` itself. -/
def convert_to_weekly (df : Frame) (dateCol valueCol : String) :
    Frame × Frame :=
  let df1 := coerceFrame dateCol df
  let df2 := setColFn df1 "week"
    (fun r => match getCol dateCol r with
              | vdate d => vnum (isoWeek d)
              | _ => vnan)
  let df3 := setColFn df2 "year"
    (fun r => match getCol dateCol r with
              | vdate d => vnum (isoYear d)
              | _ => vnan)
  (groupAgg df3 "year" "week" valueCol dateCol, df3)

/-- Embeds `convert_to_monthly(data, date_column, value_column)`. -/
def convert_to_monthly (df : Frame) (dateCol valueCol : String) :
    Frame × Frame :=
  let df1 := coerceFrame dateCol df
  let df2 := setColFn df1 "month"
    (fun r => match getCol dateCol r with
              | vdate d => vnum (monthOf d)
              | _ => vnan)
  let df3 := setColFn df2 "year"
    (fun r => match getCol dateCol r with
              | vdate d => vnum (yearOf d)
              | _ => vnan)
  (groupAgg df3 "year" "month" valueCol dateCol, df3)

/-- Series `shift(1)`: NaN in front, last value dropped (the shift of an
empty series is empty). -/
def shift1 (xs : List Val) : List Val :=
  match xs with
  | [] => []
  | _ :: _ => vnan :: xs.dropLast

/-- Embeds `calculate_growth_rate(data, value_column)`: the source works on
`data.copy()`, so the second component (the caller's frame after the call)
is the input unchanged. -/
def calculate_growth_rate (df : Frame) (valueCol : String) :
    Frame × Frame :=
  let df1 := setColVals df "previous_value" (shift1 (colVals valueCol df))
  let growth := List.zipWith (fun a b => valDiv (valSub a b) b)
    (colVals valueCol df1) (colVals "previous_value" df1)
  (setColVals df1 "growth_rate" growth, df)

/-- Name of the moving-average column, pandas f-string `{col}_ma{window}`. -/
def maColName (valueCol : String) (w : ℕ) : String :=
  valueCol ++ "_ma" ++ toString w

/-- Embeds `calculate_moving_average(data, value_column, window)`; works on
a copy, so the input frame is returned unchanged. -/
def calculate_moving_average (df : Frame) (valueCol : String) (w : ℕ) :
    Frame × Frame :=
  (setColVals df (maColName valueCol w) (rollingVals w (colVals valueCol df)),
   df)

/-- Normalized date bound: `pd.to_datetime` is applied when the bound is a
string, other values pass through. -/
def normBound (v : Val) : Val :=
  match v with
  | vstr s => to_datetime (vstr s)
  | _ => v

/-- Comparison of a datetime column cell against a bound; as in pandas,
NaT compares false. -/
def dateLeB : Val → Val → Bool
  | vdate a, vdate b => a ≤ b
  | _, _ => false

/-- Embeds `filter_by_date_range(data, date_column, start_date, end_date)`.
The second component reflects the in-place dtype coercion of the date
column on the caller's frame. -/
def filter_by_date_range (df : Frame) (dateCol : String)
    (startDate endDate : Val) : Frame × Frame :=
  let df1 := coerceFrame dateCol df
  let s := normBound startDate
  let e := normBound endDate
  (df1.filter (fun r =>
      dateLeB s (getCol dateCol r) && dateLeB (getCol dateCol r) e),
   df1)

/-- Embeds `calculate_percentages(data, value_column, total=None)`; works on
a copy, so the input frame is returned unchanged. -/
def calculate_percentages (df : Frame) (valueCol : String)
    (total : Option ℚ) : Frame × Frame :=
  let t : Val := match total with
                 | some q => vnum q
                 | none => pdSum (colVals valueCol df)
  let pct := (colVals valueCol df).map
    (fun v => valMul (valDiv v t) (vnum 100))
  (setColVals df (valueCol ++ "_pct") pct, df)

/-! ### src/utils/analytics.py -/

/-- Embeds `calculate_growth(current, previous)`: the source returns
`float('inf')` when the previous value is zero (comment in the source:
avoid division by zero) and the plain relative change otherwise. -/
def calculate_growth (current previous : ℚ) : Val :=
  if previous = 0 then vinf
  else vnum ((current - previous) / previous)

/-- Embeds `calculate_running_average(data, column, window)`: the bare
rolling-mean Series. -/
def calculate_running_average (df : Frame) (c : String) (w : ℕ) :
    List Val :=
  rollingVals w (colVals c df)

/-- Embeds `calculate_cumulative_sum(data, column)` on numeric columns. -/
def calculate_cumulative_sum (qs : List ℚ) : List ℚ :=
  (List.range qs.length).map (fun i => ((qs.take (i + 1)).sum))

/-- Python division, which raises `ZeroDivisionError` on a zero
denominator. -/
def pyDiv (a b : ℚ) : Except String ℚ :=
  if b = 0 then Except.error "division by zero" else Except.ok (a / b)

/-- Python `sum(data <= value)`: booleans count 1 or 0. -/
def countLe (qs : List ℚ) (value : ℚ) : ℚ :=
  (qs.map (fun x => if x ≤ value then (1 : ℚ) else 0)).sum

/-- Embeds `calculate_percentile(data, value)`:
`sum(data <= value) / len(data) * 100` with Python division, which is
unguarded against an empty dataset. -/
def calculate_percentile (qs : List ℚ) (value : ℚ) : Except String ℚ :=
  (pyDiv (countLe qs value) (qs.length : ℚ)).map (fun r => r * 100)

/-- Numeric reading of a cell, for the numpy interface of the forecast
(non-numeric cells would raise inside numpy; no claim exercises them). -/
def toQ (v : Val) : ℚ :=
  match v with
  | vnum q => q
  | _ => 0

/-- The apostrophe character used by the source's error f-string. -/
def squoteStr : String := String.singleton (Char.ofNat 39)

/-- Embeds `predict_future_value(data, column, periods, method)`.
The `linear` branch is `np.polyfit(x, y, 1)` with `x = 0..n-1`, written out
as the closed-form least-squares solution; `np.polyfit` raises on an empty
input (`expected non-empty vector for x`).  For a single row the normal
equations are singular and numpy's minimum-norm solution is slope 0,
intercept y0, which is exactly what the formulas below give with rational
division by zero equal to zero.  The `moving_average` branch indexes
`.iloc[-1]`, which raises on an empty frame. -/
def predict_future_value (df : Frame) (c : String) (periods : ℕ)
    (method : String) : Except String (List Val) :=
  if method = "linear" then
    if df.length = 0 then Except.error "expected non-empty vector for x"
    else
      let n : ℚ := (df.length : ℚ)
      let ys := (colVals c df).map toQ
      let xs := (List.range df.length).map (fun i => (i : ℚ))
      let sx := xs.sum
      let sy := ys.sum
      let sxx := (xs.map (fun x => x * x)).sum
      let sxy := ((xs.zip ys).map (fun p => p.1 * p.2)).sum
      let slope := (n * sxy - sx * sy) / (n * sxx - sx * sx)
      let intercept := (sy - slope * sx) / n
      Except.ok ((List.range periods).map
        (fun k => vnum (slope * ((df.length : ℚ) + (k : ℚ)) + intercept)))
  else if method = "moving_average" then
    if df.length = 0 then
      Except.error "single positional indexer is out-of-bounds"
    else
      let w := min 7 df.length
      let ma := ((rollingVals w (colVals c df)).getLast?).getD vnan
      Except.ok (List.replicate periods ma)
  else
    Except.error ("Prediction method " ++ squoteStr ++ method ++ squoteStr
      ++ " not supported")

/-! ### Concrete frames used by counterexamples and witnesses -/

/-- Day count of 2024-01-01 (a Monday). -/
def day0 : ℤ := daysFromCivil 2024 1 1

/-- The 30-day daily table of the spec's filter-exactness property:
dates 2024-01-01 .. 2024-01-30, values 100, 110, ... (step 10). -/
def thirtyDf : Frame :=
  (List.range 30).map (fun i =>
    [("date", vdate (day0 + (i : ℤ))),
     ("streams", vnum (100 + 10 * (i : ℚ)))])

/-- A one-row frame with a datetime-typed date column. -/
def oneRowDf : Frame :=
  [[("date", vdate day0), ("streams", vnum 5)]]

/-- Is the cell a finite number? (used to state numeric-column
hypotheses). -/
def isNumV : Val → Bool
  | Val.vnum _ => true
  | _ => false

/-! ### Row- and column-level lemmas -/

theorem getCol_map_subst_found (r : Row) (c : String) (v : Val)
    (h : r.any (fun p => p.1 = c)) :
    getCol c (r.map (fun p => if p.1 = c then (c, v) else p)) = v := by
  induction r with
  | nil => simp at h
  | cons p rest ih =>
      by_cases hp : p.1 = c
      · simp [getCol, hp]
      · simp only [List.any_cons, Bool.or_eq_true, decide_eq_true_eq] at h
        rcases h with h | h
        · exact absurd h hp
        · simpa [getCol, hp] using ih h

theorem getCol_map_subst_ne (r : Row) (c c' : String) (v : Val)
    (h : c' ≠ c) :
    getCol c' (r.map (fun p => if p.1 = c then (c, v) else p)) =
      getCol c' r := by
  induction r with
  | nil => simp [getCol]
  | cons p rest ih =>
      by_cases hp : p.1 = c
      · have hpc' : ¬ p.1 = c' := by rw [hp]; exact Ne.symm h
        simp [getCol, hp, Ne.symm h, hpc', ih]
      · by_cases hpc' : p.1 = c'
        · simp [getCol, hp, hpc', h, Ne.symm h]
        · simp [getCol, hp, hpc', ih]

theorem getCol_append_single_found (r : Row) (c : String) (v : Val)
    (h : ¬ r.any (fun p => p.1 = c)) :
    getCol c (r ++ [(c, v)]) = v := by
  induction r with
  | nil => simp [getCol]
  | cons p rest ih =>
      simp only [List.any_cons, Bool.or_eq_true, decide_eq_true_eq] at h
      push_neg at h
      simpa [getCol, h.1] using ih (by simpa using h.2)

theorem getCol_append_single_ne (r : Row) (c c' : String) (v : Val)
    (h : c' ≠ c) :
    getCol c' (r ++ [(c, v)]) = getCol c' r := by
  induction r with
  | nil => simp [getCol, Ne.symm h]
  | cons p rest ih =>
      by_cases hpc' : p.1 = c'
      · simp [getCol, hpc']
      · simp [getCol, hpc', ih]

theorem getCol_set_self (r : Row) (c : String) (v : Val) :
    getCol c (Row.set r c v) = v := by
  unfold Row.set
  by_cases h : r.any (fun p => p.1 = c)
  · simpa [h] using getCol_map_subst_found r c v h
  · simpa [h] using getCol_append_single_found r c v h

theorem getCol_set_ne (r : Row) (c c' : String) (v : Val) (h : c' ≠ c) :
    getCol c' (Row.set r c v) = getCol c' r := by
  unfold Row.set
  by_cases ha : r.any (fun p => p.1 = c)
  · simpa [ha] using getCol_map_subst_ne r c c' v h
  · simpa [ha] using getCol_append_single_ne r c c' v h

theorem colVals_setColVals_self (df : Frame) (c : String) (vs : List Val)
    (hlen : vs.length = df.length) :
    colVals c (setColVals df c vs) = vs := by
  induction df generalizing vs with
  | nil => cases vs with
      | nil => rfl
      | cons v vs => simp at hlen
  | cons r rest ih =>
      cases vs with
      | nil => simp at hlen
      | cons v vs =>
          simp only [List.length_cons, Nat.succ.injEq] at hlen
          simp [colVals, setColVals, List.zip_cons_cons, getCol_set_self]
          simpa [colVals, setColVals] using ih vs hlen

theorem colVals_setColVals_ne (df : Frame) (c c' : String) (vs : List Val)
    (hlen : vs.length = df.length) (h : c' ≠ c) :
    colVals c' (setColVals df c vs) = colVals c' df := by
  induction df generalizing vs with
  | nil => cases vs with
      | nil => rfl
      | cons v vs => simp at hlen
  | cons r rest ih =>
      cases vs with
      | nil => simp at hlen
      | cons v vs =>
          simp only [List.length_cons, Nat.succ.injEq] at hlen
          simp only [colVals, setColVals, List.zip_cons_cons, List.map_cons]
          rw [getCol_set_ne _ _ _ _ h]
          simpa [colVals, setColVals] using ih vs hlen

theorem colVals_setColFn_self (df : Frame) (c : String) (f : Row → Val) :
    colVals c (setColFn df c f) = df.map f := by
  induction df with
  | nil => rfl
  | cons r rest ih =>
      simp only [colVals, setColFn, List.map_cons] at *
      rw [getCol_set_self]
      simpa using ih

theorem colVals_setColFn_ne (df : Frame) (c c' : String) (f : Row → Val)
    (h : c' ≠ c) :
    colVals c' (setColFn df c f) = colVals c' df := by
  induction df with
  | nil => rfl
  | cons r rest ih =>
      simp only [colVals, setColFn, List.map_cons] at *
      rw [getCol_set_ne _ _ _ _ h]
      simpa using ih

theorem length_setColVals (df : Frame) (c : String) (vs : List Val)
    (hlen : vs.length = df.length) :
    (setColVals df c vs).length = df.length := by
  simp [setColVals, List.length_zip, hlen]

theorem length_colVals (df : Frame) (c : String) :
    (colVals c df).length = df.length := by
  simp [colVals]

theorem length_rollingVals (w : ℕ) (xs : List Val) :
    (rollingVals w xs).length = xs.length := by
  simp [rollingVals]

theorem length_shift1 (xs : List Val) :
    (shift1 xs).length = xs.length := by
  cases xs with
  | nil => rfl
  | cons x xs => simp [shift1]

theorem colVals_coerceRow_ne (df : Frame) (c c' : String) (h : c' ≠ c) :
    colVals c' (df.map (coerceRow c)) = colVals c' df := by
  have hrow : ∀ r : Row, getCol c' (coerceRow c r) = getCol c' r := by
    intro r
    induction r with
    | nil => rfl
    | cons p rest ih =>
        by_cases hp : p.1 = c
        · simp only [coerceRow, List.map_cons, getCol, hp, if_true,
            Ne.symm h, if_false]
          simpa [coerceRow] using ih
        · by_cases hpc' : p.1 = c'
          · simp [coerceRow, getCol, hp, hpc', h, Ne.symm h]
          · simp only [coerceRow, List.map_cons, getCol, hp, if_false, hpc']
            simpa [coerceRow] using ih
  simp only [colVals, List.map_map]
  exact List.map_congr_left (fun r _ => hrow r)

theorem colVals_coerceFrame_ne (df : Frame) (c c' : String) (h : c' ≠ c) :
    colVals c' (coerceFrame c df) = colVals c' df := by
  unfold coerceFrame
  by_cases hd : isDatetimeCol c df
  · simp [hd]
  · simp only [hd, if_false]
    exact colVals_coerceRow_ne df c c' h

theorem length_coerceFrame (df : Frame) (c : String) :
    (coerceFrame c df).length = df.length := by
  unfold coerceFrame
  by_cases hd : isDatetimeCol c df <;> simp [hd]

theorem length_setColFn (df : Frame) (c : String) (f : Row → Val) :
    (setColFn df c f).length = df.length := by
  simp [setColFn]

/-! ### Summation over group partitions -/

theorem sum_map_ite_mem {κ : Type} [DecidableEq κ] (ks : List κ)
    (hnd : ks.Nodup) (a : κ) (q : ℚ) :
    (ks.map (fun k => if a = k then q else 0)).sum =
      if a ∈ ks then q else 0 := by
  induction ks with
  | nil => simp
  | cons k ks ih =>
      simp only [List.nodup_cons] at hnd
      by_cases hk : a = k
      · subst hk
        simp [List.sum_map_eq_nsmul_single, hnd.1]
        rw [ih hnd.2]
        simp [fun hm => hnd.1 hm]
      · simp only [List.map_cons, List.sum_cons, if_neg hk, zero_add,
          List.mem_cons]
        rw [ih hnd.2]
        by_cases hm : a ∈ ks <;> simp [hm, hk]

theorem partition_sum {κ ρ : Type} [DecidableEq κ] (ks : List κ)
    (hnd : ks.Nodup) (rows : List ρ) (key : ρ → κ) (f : ρ → ℚ)
    (hcov : ∀ r ∈ rows, key r ∈ ks) :
    (ks.map (fun k =>
      ((rows.filter (fun r => key r = k)).map f).sum)).sum =
      (rows.map f).sum := by
  induction rows with
  | nil => simp
  | cons r rest ih =>
      have hstep : ∀ k : κ,
          ((List.filter (fun x => decide (key x = k)) (r :: rest)).map f).sum
            = (if key r = k then f r else 0) +
              ((List.filter (fun x => decide (key x = k)) rest).map f).sum := by
        intro k
        by_cases hk : key r = k
        · simp [List.filter_cons, hk]
        · simp [List.filter_cons, hk]
      calc (ks.map (fun k =>
              ((List.filter (fun x => decide (key x = k)) (r :: rest)).map
                f).sum)).sum
          = (ks.map (fun k => (if key r = k then f r else 0) +
              ((List.filter (fun x => decide (key x = k)) rest).map
                f).sum)).sum := by
            exact congrArg List.sum (List.map_congr_left (fun k _ => hstep k))
        _ = (ks.map (fun k => if key r = k then f r else 0)).sum +
            (ks.map (fun k =>
              ((List.filter (fun x => decide (key x = k)) rest).map
                f).sum)).sum := List.sum_map_add
        _ = f r + (rest.map f).sum := by
            rw [ih (fun x hx => hcov x (List.mem_cons_of_mem r hx))]
            rw [sum_map_ite_mem ks hnd (key r) (f r)]
            simp [hcov r (List.mem_cons_self r rest)]
        _ = ((r :: rest).map f).sum := by simp

/-! ### Aggregate-level lemmas -/

theorem pdSum_eq_sum_toQ (ys : List Val)
    (h : ∀ v ∈ ys, ∃ q, v = vnum q) :
    pdSum ys = vnum ((ys.map toQ).sum) := by
  induction ys with
  | nil => simp [pdSum]
  | cons y ys ih =>
      obtain ⟨q, hq⟩ := h y (List.mem_cons_self y ys)
      subst hq
      have ih' := ih (fun v hv => h v (List.mem_cons_of_mem _ hv))
      simp only [pdSum, List.foldr_cons] at *
      rw [ih']
      simp [valAdd, toQ]

theorem allNums_map_vnum {α : Type} (l : List α) (f : α → ℚ) :
    allNums (l.map (fun x => vnum (f x))) = some (l.map f) := by
  induction l with
  | nil => rfl
  | cons x l ih => simp [allNums, ih]

/-! ### The growth-rate column -/

theorem shift1_getD_zero (xs : List Val) (h : xs ≠ []) :
    (shift1 xs).getD 0 vnan = vnan := by
  cases xs with
  | nil => exact absurd rfl h
  | cons x xs => rfl

theorem shift1_getD_succ (xs : List Val) (i : ℕ) (h : i + 1 < xs.length) :
    (shift1 xs).getD (i + 1) vnan = xs.getD i vnan := by
  cases xs with
  | nil => simp at h
  | cons x xs =>
      have hlen : i + 1 < (shift1 (x :: xs)).length := by
        simpa [length_shift1] using h
      have hdl : i < ((x :: xs).dropLast).length := by
        simp only [List.length_dropLast, List.length_cons] at *
        omega
      rw [List.getD_eq_getElem _ _ hlen, List.getD_eq_getElem _ _ (by omega)]
      show (vnan :: (x :: xs).dropLast)[i + 1] = (x :: xs)[i]
      rw [List.getElem_cons_succ, List.getElem_dropLast]

theorem zipWith_getD (f : Val → Val → Val) (l1 l2 : List Val) (i : ℕ)
    (h1 : i < l1.length) (h2 : i < l2.length) :
    (List.zipWith f l1 l2).getD i vnan = f (l1.getD i vnan) (l2.getD i vnan) := by
  have hz : i < (List.zipWith f l1 l2).length := by
    simp [List.length_zipWith]; omega
  rw [List.getD_eq_getElem _ _ hz, List.getD_eq_getElem _ _ h1,
    List.getD_eq_getElem _ _ h2, List.getElem_zipWith]

/-- The growth-rate column produced by `calculate_growth_rate` is the
elementwise division of the value column minus its shift by the shift. -/
theorem growth_col (df : Frame) (v : String) (hv : v ≠ "previous_value") :
    colVals "growth_rate" (calculate_growth_rate df v).1 =
      List.zipWith (fun a b => valDiv (valSub a b) b)
        (colVals v df) (shift1 (colVals v df)) := by
  unfold calculate_growth_rate
  have hlen1 : (shift1 (colVals v df)).length = df.length := by
    rw [length_shift1, length_colVals]
  have hdf1 : (setColVals df "previous_value" (shift1 (colVals v df))).length
      = df.length := length_setColVals _ _ _ hlen1
  have h1 : colVals "previous_value"
      (setColVals df "previous_value" (shift1 (colVals v df)))
      = shift1 (colVals v df) := colVals_setColVals_self _ _ _ hlen1
  have h2 : colVals v (setColVals df "previous_value" (shift1 (colVals v df)))
      = colVals v df := colVals_setColVals_ne _ _ _ _ hlen1 hv
  simp only [h1, h2]
  apply colVals_setColVals_self
  rw [List.length_zipWith, length_colVals, hlen1, hdf1]
  simp

theorem valSub_nan_right (x : Val) : valSub x vnan = vnan := by
  cases x <;> rfl

/-! ### Claim C1 -/

/-- C1 counterexample: with a zero previous value the growth helper
returns positive infinity, which is not an undefined (NaN) marker. -/
theorem C1_counterexample :
    calculate_growth 5 0 = Val.vinf ∧ Val.vinf ≠ Val.vnan := by decide

/-- C1 (amended): when the previous row's value is zero, the growth
computation raises no exception, but it does not produce an "undefined"
marker either: `calculate_growth` returns positive infinity, and the
growth-rate column of `calculate_growth_rate` holds positive infinity,
negative infinity, or NaN according to the sign of the current value. -/
theorem C1_zero_previous_gives_infinity :
    (∀ current : ℚ, calculate_growth current 0 = Val.vinf) ∧
    (∀ (df : Frame) (v : String) (i : ℕ) (a : ℚ),
      v ≠ "previous_value" → i + 1 < df.length →
      (colVals v df).getD (i + 1) Val.vnan = Val.vnum a →
      (colVals v df).getD i Val.vnan = Val.vnum 0 →
      (colVals "growth_rate" (calculate_growth_rate df v).1).getD (i + 1)
          Val.vnan =
        (if 0 < a then Val.vinf else if a < 0 then Val.vninf
         else Val.vnan)) := by
  constructor
  · intro current
    simp [calculate_growth]
  · intro df v i a hv hi ha hb
    rw [growth_col df v hv]
    have hxs : i + 1 < (colVals v df).length := by
      rwa [length_colVals]
    have hsh : i + 1 < (shift1 (colVals v df)).length := by
      rwa [length_shift1]
    rw [zipWith_getD _ _ _ _ hxs hsh, shift1_getD_succ _ _ hxs, ha, hb]
    simp only [valSub, valDiv, sub_zero]
    norm_num

/-- C1 witness: the amended statement evaluated at concrete inputs. -/
theorem C1_witness :
    calculate_growth 7 0 = Val.vinf ∧
    (colVals "growth_rate"
      (calculate_growth_rate [[("v", Val.vnum 0)], [("v", Val.vnum 3)]]
        "v").1).getD 1 Val.vnan =
      (if (0 : ℚ) < 3 then Val.vinf else if (3 : ℚ) < 0 then Val.vninf
       else Val.vnan) :=
  ⟨C1_zero_previous_gives_infinity.1 7,
   C1_zero_previous_gives_infinity.2
     [[("v", Val.vnum 0)], [("v", Val.vnum 3)]] "v" 0 3 (by decide)
     (by decide) (by decide) (by decide)⟩

/-! ### Claim C5 -/

/-- C5: for every table, `calculate_growth_rate` assigns to each row i > 0
with a nonzero previous value the growth rate
(value[i] − value[i−1]) / value[i−1], and row 0's growth rate is NaN
(undefined: no prior value exists). -/
theorem C5_growth_rate_formula :
    (∀ (df : Frame) (v : String) (i : ℕ) (a b : ℚ),
      v ≠ "previous_value" → i + 1 < df.length →
      (colVals v df).getD (i + 1) Val.vnan = Val.vnum a →
      (colVals v df).getD i Val.vnan = Val.vnum b →
      b ≠ 0 →
      (colVals "growth_rate" (calculate_growth_rate df v).1).getD (i + 1)
        Val.vnan = Val.vnum ((a - b) / b)) ∧
    (∀ (df : Frame) (v : String), v ≠ "previous_value" → df ≠ [] →
      (colVals "growth_rate" (calculate_growth_rate df v).1).getD 0
        Val.vnan = Val.vnan) := by
  constructor
  · intro df v i a b hv hi ha hb hb0
    rw [growth_col df v hv]
    have hxs : i + 1 < (colVals v df).length := by
      rwa [length_colVals]
    have hsh : i + 1 < (shift1 (colVals v df)).length := by
      rwa [length_shift1]
    rw [zipWith_getD _ _ _ _ hxs hsh, shift1_getD_succ _ _ hxs, ha, hb]
    simp [valSub, valDiv, hb0]
  · intro df v hv hne
    rw [growth_col df v hv]
    have hlen : 0 < df.length := List.length_pos.mpr hne
    have hxs : 0 < (colVals v df).length := by rwa [length_colVals]
    have hsh : 0 < (shift1 (colVals v df)).length := by
      rwa [length_shift1]
    rw [zipWith_getD _ _ _ _ hxs hsh,
      shift1_getD_zero _ (by simpa [← List.length_pos, length_colVals]
        using hlen), valSub_nan_right]
    rfl

/-- C5 witness: the formula and the undefined first row at a concrete
table. -/
theorem C5_witness :
    (colVals "growth_rate"
      (calculate_growth_rate
        [[("v", Val.vnum 100)], [("v", Val.vnum 110)]] "v").1).getD 1
      Val.vnan = Val.vnum ((110 - 100) / 100) ∧
    (colVals "growth_rate"
      (calculate_growth_rate
        [[("v", Val.vnum 100)], [("v", Val.vnum 110)]] "v").1).getD 0
      Val.vnan = Val.vnan :=
  ⟨C5_growth_rate_formula.1 [[("v", Val.vnum 100)], [("v", Val.vnum 110)]]
      "v" 0 110 100 (by decide) (by decide) (by decide) (by decide)
      (by norm_num),
   C5_growth_rate_formula.2 [[("v", Val.vnum 100)], [("v", Val.vnum 110)]]
      "v" (by decide) (by decide)⟩

/-! ### Claim C6 -/

theorem ma_col (df : Frame) (v : String) (w : ℕ) :
    colVals (maColName v w) (calculate_moving_average df v w).1 =
      rollingVals w (colVals v df) := by
  unfold calculate_moving_average
  apply colVals_setColVals_self
  rw [length_rollingVals, length_colVals]

theorem windowAt_eq_map_range (w i : ℕ) (xs : List Val) (hw : w ≤ i + 1)
    (hi : i < xs.length) :
    windowAt w i xs =
      (List.range w).map (fun j => xs.getD (i + 1 - w + j) Val.vnan) := by
  apply List.ext_getElem
  · simp only [windowAt, List.length_drop, List.length_take,
      List.length_map, List.length_range]
    omega
  · intro n h1 h2
    simp only [windowAt] at h1 ⊢
    have hn : n < w := by
      simpa [List.length_map, List.length_range] using h2
    have hbound : i + 1 - w + n < xs.length := by omega
    have htake : i + 1 - w + n < (xs.take (i + 1)).length := by
      simp only [List.length_take]
      omega
    rw [List.getElem_drop, List.getElem_map, List.getElem_range,
      List.getElem_take, List.getD_eq_getElem _ _ hbound]

theorem rollingVals_getD (w i : ℕ) (xs : List Val) (hi : i < xs.length) :
    (rollingVals w xs).getD i Val.vnan =
      if i + 1 < w then Val.vnan else meanVal (windowAt w i xs) := by
  have hlen : i < (rollingVals w xs).length := by
    rwa [length_rollingVals]
  rw [List.getD_eq_getElem _ _ hlen]
  simp only [rollingVals]
  rw [List.getElem_map, List.getElem_range]

/-- C6: for every table and window w ≥ 1, the moving-average column is NaN
at each row i with fewer than w values up to and including i (i < w−1),
and otherwise holds the arithmetic mean of the trailing w values ending at
i inclusive; `calculate_running_average` is exactly that column. -/
theorem C6_moving_average :
    (∀ (df : Frame) (v : String) (w i : ℕ), 1 ≤ w → i < df.length →
      i + 1 < w →
      (colVals (maColName v w)
        (calculate_moving_average df v w).1).getD i Val.vnan = Val.vnan) ∧
    (∀ (df : Frame) (v : String) (w i : ℕ) (f : ℕ → ℚ), 1 ≤ w →
      i < df.length → w ≤ i + 1 →
      (∀ j, j < w →
        (colVals v df).getD (i + 1 - w + j) Val.vnan = Val.vnum (f j)) →
      (colVals (maColName v w)
        (calculate_moving_average df v w).1).getD i Val.vnan =
        Val.vnum (((List.range w).map f).sum / (w : ℚ))) ∧
    (∀ (df : Frame) (v : String) (w : ℕ),
      calculate_running_average df v w =
        colVals (maColName v w) (calculate_moving_average df v w).1) := by
  refine ⟨?_, ?_, ?_⟩
  · intro df v w i hw hi hlt
    rw [ma_col]
    have hxs : i < (colVals v df).length := by rwa [length_colVals]
    rw [rollingVals_getD _ _ _ hxs, if_pos hlt]
  · intro df v w i f hw hi hge h
    rw [ma_col]
    have hxs : i < (colVals v df).length := by rwa [length_colVals]
    rw [rollingVals_getD _ _ _ hxs, if_neg (by omega)]
    rw [windowAt_eq_map_range w i _ hge hxs]
    have hmap : (List.range w).map
        (fun j => (colVals v df).getD (i + 1 - w + j) Val.vnan) =
        (List.range w).map (fun j => Val.vnum (f j)) := by
      apply List.map_congr_left
      intro j hj
      exact h j (List.mem_range.mp hj)
    rw [hmap]
    simp only [meanVal, allNums_map_vnum, List.length_map,
      List.length_range]
  · intro df v w
    exact (ma_col df v w).symm

/-- C6 witness: both branches and the running-average equality at a
concrete three-row table with window 2. -/
theorem C6_witness :
    (colVals (maColName "v" 2)
      (calculate_moving_average
        [[("v", Val.vnum 1)], [("v", Val.vnum 3)], [("v", Val.vnum 5)]]
        "v" 2).1).getD 0 Val.vnan = Val.vnan ∧
    (colVals (maColName "v" 2)
      (calculate_moving_average
        [[("v", Val.vnum 1)], [("v", Val.vnum 3)], [("v", Val.vnum 5)]]
        "v" 2).1).getD 2 Val.vnan =
      Val.vnum (((List.range 2).map
        (fun j => if j = 0 then (3 : ℚ) else 5)).sum / (2 : ℚ)) ∧
    calculate_running_average
      [[("v", Val.vnum 1)], [("v", Val.vnum 3)], [("v", Val.vnum 5)]]
      "v" 2 =
      colVals (maColName "v" 2)
        (calculate_moving_average
          [[("v", Val.vnum 1)], [("v", Val.vnum 3)], [("v", Val.vnum 5)]]
          "v" 2).1 :=
  ⟨C6_moving_average.1
      [[("v", Val.vnum 1)], [("v", Val.vnum 3)], [("v", Val.vnum 5)]]
      "v" 2 0 (by decide) (by decide) (by decide),
   C6_moving_average.2.1
      [[("v", Val.vnum 1)], [("v", Val.vnum 3)], [("v", Val.vnum 5)]]
      "v" 2 2 (fun j => if j = 0 then (3 : ℚ) else 5) (by decide)
      (by decide) (by decide) (by decide),
   C6_moving_average.2.2
      [[("v", Val.vnum 1)], [("v", Val.vnum 3)], [("v", Val.vnum 5)]]
      "v" 2⟩

/-! ### Claim C10 -/

theorem countLe_eq_filter_length (qs : List ℚ) (v : ℚ) :
    countLe qs v = ((qs.filter (fun x => x ≤ v)).length : ℚ) := by
  induction qs with
  | nil => simp [countLe]
  | cons q qs ih =>
      simp only [countLe, List.map_cons, List.sum_cons, List.filter_cons]
      by_cases hq : q ≤ v
      · simp only [hq, if_true, decide_eq_true_eq]
        rw [show (qs.map fun x => if x ≤ v then (1 : ℚ) else 0).sum
            = countLe qs v from rfl, ih]
        simp [hq]
        ring
      · simp only [hq, if_false]
        rw [zero_add,
          show (qs.map fun x => if x ≤ v then (1 : ℚ) else 0).sum
            = countLe qs v from rfl, ih]
        simp [hq]

/-- C10: the division in `calculate_percentile` is unguarded — on an empty
dataset it raises a division-by-zero error — and on a non-empty dataset
the error branch is unreachable and the result is
(count of elements ≤ value) / (dataset size) * 100. -/
theorem C10_percentile_unguarded_division :
    (∀ v : ℚ, calculate_percentile [] v =
      Except.error "division by zero") ∧
    (∀ (qs : List ℚ) (v : ℚ), qs ≠ [] →
      calculate_percentile qs v =
        Except.ok (((qs.filter (fun x => x ≤ v)).length : ℚ) /
          (qs.length : ℚ) * 100)) := by
  constructor
  · intro v
    simp [calculate_percentile, pyDiv, Except.map]
  · intro qs v hne
    have h0 : qs.length ≠ 0 := by
      simpa [List.length_eq_zero] using hne
    have hlen : (qs.length : ℚ) ≠ 0 := Nat.cast_ne_zero.mpr h0
    simp only [calculate_percentile, pyDiv, hlen, if_false,
      Except.map, countLe_eq_filter_length]

/-- C10 witness: the percentile formula at a concrete dataset. -/
theorem C10_witness :
    calculate_percentile [1, 2, 3, 4] 3 =
      Except.ok (((([1, 2, 3, 4] : List ℚ).filter
        (fun x => x ≤ 3)).length : ℚ) /
          (([1, 2, 3, 4] : List ℚ).length : ℚ) * 100) :=
  C10_percentile_unguarded_division.2 [1, 2, 3, 4] 3 (by decide)

/-! ### Claim C8 -/

/-- C8 counterexample: the supported method `linear` does raise on an
empty table (`np.polyfit` rejects an empty input), so the supported
methods do not unconditionally avoid raising. -/
theorem C8_counterexample :
    predict_future_value [] "v" 1 "linear" =
      Except.error "expected non-empty vector for x" := by rfl

/-- C8 (amended): any method string other than `linear` and
`moving_average` makes `predict_future_value` raise an unsupported-method
error whose message includes the offending method name; the supported
methods do not raise provided the table is non-empty (on an empty table
the underlying fit / indexing raises instead). -/
theorem C8_unsupported_method_error :
    (∀ (df : Frame) (c : String) (p : ℕ) (m : String),
      m ≠ "linear" → m ≠ "moving_average" →
      predict_future_value df c p m =
        Except.error ("Prediction method " ++ squoteStr ++ m ++ squoteStr
          ++ " not supported")) ∧
    (∀ (df : Frame) (c : String) (p : ℕ), df ≠ [] →
      (predict_future_value df c p "linear").isOk = true ∧
      (predict_future_value df c p "moving_average").isOk = true) := by
  constructor
  · intro df c p m hm1 hm2
    simp [predict_future_value, hm1, hm2]
  · intro df c p hne
    have hlen : df.length ≠ 0 := by
      simpa [List.length_eq_zero] using hne
    constructor
    · simp [predict_future_value, hlen, Except.isOk, Except.toBool]
    · simp [predict_future_value, hlen, Except.isOk, Except.toBool]

/-- C8 witness: the error message for a concrete unsupported method and
success of both supported methods on a concrete one-row table. -/
theorem C8_witness :
    predict_future_value oneRowDf "streams" 2 "cubic" =
      Except.error ("Prediction method " ++ squoteStr ++ "cubic"
        ++ squoteStr ++ " not supported") ∧
    (predict_future_value oneRowDf "streams" 2 "linear").isOk = true ∧
    (predict_future_value oneRowDf "streams" 2 "moving_average").isOk
      = true :=
  ⟨C8_unsupported_method_error.1 oneRowDf "streams" 2 "cubic" (by decide)
      (by decide),
   C8_unsupported_method_error.2 oneRowDf "streams" 2 (by decide)⟩

/-! ### Claim C9 -/

theorem to_datetime_idem (v : Val) :
    to_datetime (to_datetime v) = to_datetime v := by
  cases v with
  | vstr s => cases h : parseDate s <;> simp [to_datetime, h]
  | _ => rfl

theorem coerceRow_idem (c : String) (r : Row) :
    coerceRow c (coerceRow c r) = coerceRow c r := by
  induction r with
  | nil => rfl
  | cons p rest ih =>
      by_cases hp : p.1 = c
      · simpa [coerceRow, hp, to_datetime_idem] using ih
      · simpa [coerceRow, hp] using ih

/-- C9: filtering by a date range is idempotent — applying
`filter_by_date_range` twice with the same bounds yields the same table
as applying it once. -/
theorem C9_filter_idempotent (df : Frame) (dc : String) (s e : Val) :
    (filter_by_date_range (filter_by_date_range df dc s e).1 dc s e).1 =
      (filter_by_date_range df dc s e).1 := by
  show (coerceFrame dc ((coerceFrame dc df).filter _)).filter _ = _
  set p : Row → Bool := fun r =>
    dateLeB (normBound s) (getCol dc r) &&
      dateLeB (getCol dc r) (normBound e) with hp
  have hco : coerceFrame dc ((coerceFrame dc df).filter p) =
      (coerceFrame dc df).filter p := by
    unfold coerceFrame
    by_cases hd : isDatetimeCol dc df
    · rw [if_pos hd]
      have hall : isDatetimeCol dc (df.filter p) = true := by
        simp only [isDatetimeCol, List.all_eq_true] at hd ⊢
        intro r hr
        exact hd r (List.mem_of_mem_filter hr)
      rw [if_pos hall]
    · rw [if_neg hd]
      by_cases hd2 : isDatetimeCol dc ((df.map (coerceRow dc)).filter p)
      · rw [if_pos hd2]
      · rw [if_neg hd2]
        have hfix : ∀ x ∈ (df.map (coerceRow dc)).filter p,
            coerceRow dc x = x := by
          intro x hx
          obtain ⟨y, hy, rfl⟩ :=
            List.mem_map.mp (List.mem_of_mem_filter hx)
          exact coerceRow_idem dc y
        calc ((df.map (coerceRow dc)).filter p).map (coerceRow dc)
            = ((df.map (coerceRow dc)).filter p).map id :=
              List.map_congr_left hfix
          _ = (df.map (coerceRow dc)).filter p := List.map_id _
  rw [hco, List.filter_filter]
  exact List.filter_congr (fun x _ => Bool.and_self (p x))

/-! ### Claim C7 -/

/-- C7: filtering or aggregating an empty table returns an empty table
(both the result and the post-call state of the argument are empty, and —
the embedding being total — no error is raised). -/
theorem C7_empty_table (dc vc : String) (s e : Val) :
    convert_to_weekly ([] : Frame) dc vc = ([], []) ∧
    convert_to_monthly ([] : Frame) dc vc = ([], []) ∧
    filter_by_date_range ([] : Frame) dc s e = ([], []) := by
  refine ⟨?_, ?_, rfl⟩ <;>
    simp [convert_to_weekly, convert_to_monthly, coerceFrame,
      isDatetimeCol, setColFn, groupAgg, groupKeys, List.mergeSort_nil]

/-! ### Claim C2 -/

/-- C2 counterexample: weekly aggregation does not leave its input table
unchanged — it adds `week` and `year` columns to the caller's DataFrame. -/
theorem C2_counterexample :
    (convert_to_weekly [[("date", Val.vdate 19723), ("plays", Val.vnum 7)]]
      "date" "plays").2 ≠
      [[("date", Val.vdate 19723), ("plays", Val.vnum 7)]] := by decide

/-- C2 (amended): the copy-based transformations (growth rate, moving
average, percentage normalization) return a new table and leave the input
unchanged, and so does the range filter when the date column is already
datetime-typed; weekly and monthly aggregation, however, mutate the input
in place by adding grouping columns. -/
theorem C2_copy_semantics :
    (∀ (df : Frame) (v : String), (calculate_growth_rate df v).2 = df) ∧
    (∀ (df : Frame) (v : String) (w : ℕ),
      (calculate_moving_average df v w).2 = df) ∧
    (∀ (df : Frame) (v : String) (t : Option ℚ),
      (calculate_percentages df v t).2 = df) ∧
    (∀ (df : Frame) (dc : String) (s e : Val),
      isDatetimeCol dc df = true → (filter_by_date_range df dc s e).2 = df) ∧
    (convert_to_weekly oneRowDf "date" "streams").2 ≠ oneRowDf ∧
    (convert_to_monthly oneRowDf "date" "streams").2 ≠ oneRowDf := by
  refine ⟨fun df v => rfl, fun df v w => rfl, fun df v t => rfl,
    ?_, by decide, by decide⟩
  intro df dc s e hdt
  show coerceFrame dc df = df
  unfold coerceFrame
  rw [if_pos hdt]

/-- C2 witness: copy semantics at a concrete table, including the
datetime-typed filter case. -/
theorem C2_witness :
    (calculate_growth_rate oneRowDf "streams").2 = oneRowDf ∧
    (filter_by_date_range oneRowDf "date" (Val.vstr "2024-01-01")
      (Val.vstr "2024-01-05")).2 = oneRowDf :=
  ⟨C2_copy_semantics.1 oneRowDf "streams",
   C2_copy_semantics.2.2.2.1 oneRowDf "date" (Val.vstr "2024-01-01")
     (Val.vstr "2024-01-05") (by decide)⟩

/-! ### Claim C4 -/

/-- C4: the range filter keeps exactly the records whose date lies between
the bounds inclusively; string bounds are normalized to dates before
comparison; no qualifying record yields an empty table; and filtering the
30-day table for its last 7 days returns exactly 7 records whose first
date is the start bound and whose last date is the end bound. -/
theorem C4_filter_by_date_range :
    (∀ (df : Frame) (dc : String) (sd ed : ℤ) (r : Row),
      isDatetimeCol dc df = true →
      (r ∈ (filter_by_date_range df dc (Val.vdate sd) (Val.vdate ed)).1 ↔
        r ∈ df ∧ ∃ d : ℤ, getCol dc r = Val.vdate d ∧ sd ≤ d ∧ d ≤ ed)) ∧
    (∀ (df : Frame) (dc : String) (s e : String) (sd ed : ℤ),
      parseDate s = some sd → parseDate e = some ed →
      filter_by_date_range df dc (Val.vstr s) (Val.vstr e) =
        filter_by_date_range df dc (Val.vdate sd) (Val.vdate ed)) ∧
    ((filter_by_date_range thirtyDf "date" (Val.vstr "2024-01-24")
        (Val.vstr "2024-01-30")).1.length = 7 ∧
      (colVals "date" (filter_by_date_range thirtyDf "date"
        (Val.vstr "2024-01-24") (Val.vstr "2024-01-30")).1).head? =
        some (to_datetime (Val.vstr "2024-01-24")) ∧
      (colVals "date" (filter_by_date_range thirtyDf "date"
        (Val.vstr "2024-01-24") (Val.vstr "2024-01-30")).1).getLast? =
        some (to_datetime (Val.vstr "2024-01-30")) ∧
      (filter_by_date_range thirtyDf "date" (Val.vstr "2025-01-01")
        (Val.vstr "2025-01-07")).1 = []) := by
  refine ⟨?_, ?_, ?_⟩
  · intro df dc sd ed r hdt
    show r ∈ (coerceFrame dc df).filter _ ↔ _
    unfold coerceFrame
    rw [if_pos hdt, List.mem_filter]
    constructor
    · rintro ⟨hmem, hpred⟩
      refine ⟨hmem, ?_⟩
      cases hv : getCol dc r with
      | vdate d =>
          rw [hv] at hpred
          simp only [normBound, dateLeB, Bool.and_eq_true,
            decide_eq_true_eq] at hpred
          exact ⟨d, rfl, hpred.1, hpred.2⟩
      | _ => rw [hv] at hpred; simp [normBound, dateLeB] at hpred
    · rintro ⟨hmem, d, hd, hs, he⟩
      refine ⟨hmem, ?_⟩
      simp [normBound, hd, dateLeB, hs, he]
  · intro df dc s e sd ed hs he
    unfold filter_by_date_range
    simp only [normBound, to_datetime, hs, he]
  · refine ⟨by decide, by decide, by decide, by decide⟩

/-- C4 witness: the membership characterization and the string-bound
normalization at concrete inputs. -/
theorem C4_witness :
    ([("date", Val.vdate 19746)] ∈
      (filter_by_date_range thirtyDf "date" (Val.vdate 19746)
        (Val.vdate 19752)).1 ↔
      [("date", Val.vdate 19746)] ∈ thirtyDf ∧
      ∃ d : ℤ, getCol "date" [("date", Val.vdate 19746)] = Val.vdate d ∧
        19746 ≤ d ∧ d ≤ 19752) ∧
    filter_by_date_range thirtyDf "date" (Val.vstr "2024-01-24")
      (Val.vstr "2024-01-30") =
      filter_by_date_range thirtyDf "date" (Val.vdate 19746)
        (Val.vdate 19752) :=
  ⟨C4_filter_by_date_range.1 thirtyDf "date" 19746 19752
      [("date", Val.vdate 19746)] (by decide),
   C4_filter_by_date_range.2.1 thirtyDf "date" "2024-01-24" "2024-01-30"
      19746 19752 (by decide) (by decide)⟩

/-! ### Claim C3 -/

theorem groupKeys_nodup (df : Frame) (c1 c2 : String) :
    (groupKeys df c1 c2).Nodup :=
  ((List.mergeSort_perm
      ((df.map (fun r => (getCol c1 r, getCol c2 r))).dedup)
      keyLeB).nodup_iff).mpr (List.nodup_dedup _)

theorem mem_groupKeys {df : Frame} {c1 c2 : String} {k : Val × Val} :
    k ∈ groupKeys df c1 c2 ↔
      k ∈ df.map (fun r => (getCol c1 r, getCol c2 r)) :=
  Iff.trans ((List.mergeSort_perm _ _).mem_iff) List.mem_dedup

theorem isNumV_exists {v : Val} (h : isNumV v = true) :
    ∃ q : ℚ, v = Val.vnum q := by
  cases v with
  | vnum q => exact ⟨q, rfl⟩
  | _ => simp [isNumV] at h

/-- The value column of a grouped aggregate holds each group's sum. -/
theorem groupAgg_col (df : Frame) (c1 c2 vc dc : String)
    (hv1 : vc ≠ c1) (hv2 : vc ≠ c2) :
    colVals vc (groupAgg df c1 c2 vc dc) =
      (groupKeys df c1 c2).map (fun k =>
        pdSum (colVals vc
          (df.filter (fun r => (getCol c1 r, getCol c2 r) = k)))) := by
  unfold groupAgg
  simp only [colVals, List.map_map]
  apply List.map_congr_left
  intro k _
  simp [getCol, Ne.symm hv1, Ne.symm hv2]

/-- Grouped aggregation with `sum` adds up, over the sorted distinct keys,
to the plain sum of the value column, provided the column is numeric. -/
theorem groupAgg_sum (df : Frame) (c1 c2 vc dc : String)
    (hv1 : vc ≠ c1) (hv2 : vc ≠ c2)
    (hnum : ∀ r ∈ df, isNumV (getCol vc r) = true) :
    pdSum (colVals vc (groupAgg df c1 c2 vc dc)) =
      Val.vnum (((colVals vc df).map toQ).sum) := by
  rw [groupAgg_col df c1 c2 vc dc hv1 hv2]
  have hgrp : ∀ k : Val × Val,
      pdSum (colVals vc
        (df.filter (fun r => (getCol c1 r, getCol c2 r) = k))) =
      Val.vnum (((df.filter
        (fun r => (getCol c1 r, getCol c2 r) = k)).map
          (fun r => toQ (getCol vc r))).sum) := by
    intro k
    rw [pdSum_eq_sum_toQ]
    · simp only [colVals, List.map_map]
      congr 1
    · intro v hv
      simp only [colVals, List.mem_map] at hv
      obtain ⟨r, hr, rfl⟩ := hv
      exact isNumV_exists (hnum r (List.mem_of_mem_filter hr))
  rw [List.map_congr_left (fun k _ => hgrp k)]
  rw [pdSum_eq_sum_toQ _ (by
    intro v hv
    simp only [List.mem_map] at hv
    obtain ⟨k, hk, rfl⟩ := hv
    exact ⟨_, rfl⟩)]
  congr 1
  rw [List.map_map]
  have : (toQ ∘ fun k => Val.vnum (((df.filter
      (fun r => (getCol c1 r, getCol c2 r) = k)).map
        (fun r => toQ (getCol vc r))).sum)) =
      fun k => ((df.filter
        (fun r => (getCol c1 r, getCol c2 r) = k)).map
          (fun r => toQ (getCol vc r))).sum := by
    funext k
    simp [toQ]
  rw [this]
  rw [partition_sum (groupKeys df c1 c2) (groupKeys_nodup df c1 c2) df
    (fun r => (getCol c1 r, getCol c2 r)) (fun r => toQ (getCol vc r))
    (fun r hr => mem_groupKeys.mpr (List.mem_map_of_mem _ hr))]
  simp only [colVals, List.map_map]
  congr 1

/-- The caller's frame after `convert_to_weekly`: columns other than the
added `week`/`year` columns and the coerced date column are unchanged. -/
theorem weekly_snd_col (df : Frame) (dateCol valCol c : String)
    (hc1 : c ≠ "week") (hc2 : c ≠ "year") (hc3 : c ≠ dateCol) :
    colVals c (convert_to_weekly df dateCol valCol).2 = colVals c df := by
  show colVals c
    (setColFn (setColFn (coerceFrame dateCol df) "week" _) "year" _) = _
  rw [colVals_setColFn_ne _ _ _ _ hc2, colVals_setColFn_ne _ _ _ _ hc1,
    colVals_coerceFrame_ne _ _ _ hc3]

/-- C3: weekly aggregation with sum is total-preserving — the sum of a
numeric value column over the weekly aggregate equals its sum over the
input table (exactly, in rational arithmetic). -/
theorem C3_weekly_sum_preservation (df : Frame) (dateCol valCol : String)
    (h1 : valCol ≠ "week") (h2 : valCol ≠ "year") (h3 : valCol ≠ dateCol)
    (hnum : ∀ r ∈ df, isNumV (getCol valCol r) = true) :
    pdSum (colVals valCol (convert_to_weekly df dateCol valCol).1) =
      pdSum (colVals valCol df) := by
  rw [show (convert_to_weekly df dateCol valCol).1 =
    groupAgg (convert_to_weekly df dateCol valCol).2 "year" "week"
      valCol dateCol from rfl]
  have hcol : colVals valCol (convert_to_weekly df dateCol valCol).2 =
      colVals valCol df := weekly_snd_col df dateCol valCol valCol h1 h2 h3
  have hnum3 : ∀ r ∈ (convert_to_weekly df dateCol valCol).2,
      isNumV (getCol valCol r) = true := by
    intro r hr
    have hmem : getCol valCol r ∈
        colVals valCol (convert_to_weekly df dateCol valCol).2 :=
      List.mem_map_of_mem _ hr
    rw [hcol] at hmem
    simp only [colVals, List.mem_map] at hmem
    obtain ⟨r0, hr0, heq⟩ := hmem
    rw [← heq]
    exact hnum r0 hr0
  rw [groupAgg_sum _ "year" "week" valCol dateCol h2 h1 hnum3, hcol,
    ← pdSum_eq_sum_toQ _ (fun v hv => by
      simp only [colVals, List.mem_map] at hv
      obtain ⟨r0, hr0, rfl⟩ := hv
      exact isNumV_exists (hnum r0 hr0))]

/-- C3 witness: sum preservation on a concrete three-row table spanning
two ISO weeks. -/
theorem C3_witness :
    pdSum (colVals "streams"
      (convert_to_weekly
        [[("date", Val.vdate 19729), ("streams", Val.vnum 3)],
         [("date", Val.vdate 19730), ("streams", Val.vnum 4)],
         [("date", Val.vdate 19731), ("streams", Val.vnum 5)]]
        "date" "streams").1) =
      pdSum (colVals "streams"
        [[("date", Val.vdate 19729), ("streams", Val.vnum 3)],
         [("date", Val.vdate 19730), ("streams", Val.vnum 4)],
         [("date", Val.vdate 19731), ("streams", Val.vnum 5)]]) :=
  C3_weekly_sum_preservation
    [[("date", Val.vdate 19729), ("streams", Val.vnum 3)],
     [("date", Val.vdate 19730), ("streams", Val.vnum 4)],
     [("date", Val.vdate 19731), ("streams", Val.vnum 5)]]
    "date" "streams" (by decide) (by decide) (by decide) (by decide)
